import Mathlib

/-!
Verification of the medinote STT orchestration core.

This file shallowly embeds the chunked-transcription pipeline of the
repository (audio segmentation, concurrent chunk dispatch, ordered
reassembly, quality gate, speaker alignment, RTF metrics) and proves or
refutes the specification claims about it.

Sources embedded:
* `src/models/stt/engine/openai_engine.py` — size routing, chunk splitting,
  per-chunk worker with temp-file cleanup, completion loop, reassembly.
* `src/stt_engine.py` — quality gate of `_transcribe_simple`,
  `_transcribe_with_diarization`, `_find_speaker`.
* `src/core/engine/hf_engine.py` and `src/core/config.py` — the working
  duration/RMS quality gate and its thresholds.
* `src/core/metrics.py` — `compute_rtf`.
* `src/config.py` — the class attributes actually available to
  `stt_engine.py` via `from config import STTConfig`.

Times and energies are modelled as rationals, byte sizes and millisecond
offsets as naturals.  Python dictionaries keyed by chunk index are
modelled as association lists in insertion (= completion) order.
-/

namespace Medinote

/-! ### Result maps and ordered reassembly (`_transcribe_chunked`)

`results` in `_transcribe_chunked` is a dict written once per chunk index,
in the order the futures complete.  We model it as an association list in
completion order; `lookupIdx` is dict lookup.  `withIdx s texts` is
`enumerate(texts, start=s)`, the indexed chunk texts in chunk order. -/

/-- Dict lookup in an association list keyed by chunk index. -/
def lookupIdx (k : Nat) : List (Nat × String) → Option String
  | [] => none
  | (k2, v) :: rest => if k = k2 then some v else lookupIdx k rest

/-- `enumerate` starting at `s`: pairs each text with its chunk index. -/
def withIdx (s : Nat) : List String → List (Nat × String)
  | [] => []
  | t :: ts => (s, t) :: withIdx (s + 1) ts

/-- Sequence a list of optional lookups; `none` anywhere is a `KeyError`. -/
def seqOpts : List (Option String) → Option (List String)
  | [] => some []
  | none :: _ => none
  | some x :: rest => (seqOpts rest).map (fun l => x :: l)

/-- `" ".join(all_texts)`. -/
def joinTexts (texts : List String) : String := String.intercalate " " texts

/-- `all_texts = [results[i] for i in range(len(chunks))]` followed by
`" ".join(all_texts)`; `none` models the `KeyError` on a missing index. -/
def assembleChunked (n : Nat) (results : List (Nat × String)) : Option String :=
  (seqOpts ((List.range n).map (fun i => lookupIdx i results))).map joinTexts

theorem withIdx_map_fst (s : Nat) (ts : List String) :
    (withIdx s ts).map Prod.fst = List.range' s ts.length := by
  induction ts generalizing s with
  | nil => rfl
  | cons t ts ih => simp [withIdx, List.range'_succ, ih]

theorem nodup_withIdx_keys (s : Nat) (ts : List String) :
    ((withIdx s ts).map Prod.fst).Nodup := by
  rw [withIdx_map_fst]; exact List.nodup_range' s ts.length

theorem lookupIdx_perm {l1 l2 : List (Nat × String)} (h : l1.Perm l2)
    (hnd : (l1.map Prod.fst).Nodup) (k : Nat) :
    lookupIdx k l1 = lookupIdx k l2 := by
  induction h with
  | nil => rfl
  | cons a _ ih =>
      simp only [List.map_cons, List.nodup_cons] at hnd
      simp only [lookupIdx, ih hnd.2]
  | swap a b l =>
      simp only [List.map_cons, List.nodup_cons, List.mem_cons] at hnd
      have hba : ¬ b.1 = a.1 := fun hh => hnd.1 (Or.inl hh)
      by_cases hkb : k = b.1
      · subst hkb
        simp [lookupIdx, hba]
      · by_cases hka : k = a.1
        · subst hka
          simp [lookupIdx, hkb]
        · simp [lookupIdx, hka, hkb]
  | trans h12 _ ih1 ih2 =>
      refine (ih1 hnd).trans (ih2 ?_)
      exact (h12.map Prod.fst).nodup_iff.mp hnd

theorem lookupIdx_withIdx (ts : List String) (s i : Nat) :
    lookupIdx (s + i) (withIdx s ts) = ts.get? i := by
  induction ts generalizing s i with
  | nil => simp [withIdx, lookupIdx]
  | cons t ts ih =>
      cases i with
      | zero => simp [withIdx, lookupIdx]
      | succ i =>
          have hne : s + (i + 1) ≠ s := by omega
          have harg : s + 1 + i = s + (i + 1) := by omega
          simp only [withIdx, lookupIdx, hne, if_false, List.get?]
          rw [← harg, ih]

theorem seqOpts_map_some (ts : List String) :
    seqOpts (ts.map some) = some ts := by
  induction ts with
  | nil => rfl
  | cons t ts ih => simp [seqOpts, ih]

theorem range_map_get (ts : List String) :
    (List.range ts.length).map (fun i => ts.get? i) = ts.map some := by
  induction ts with
  | nil => rfl
  | cons t ts ih =>
      rw [List.length_cons, List.range_succ_eq_map]
      simp only [List.map_cons, List.map_map, List.get?]
      rw [← ih]
      rfl

/-- **C1.** Reassembly in `_transcribe_chunked` reads the result map in
strict chunk-index order and joins with a single space: whenever the
completion-ordered result map holds exactly the indexed chunk texts (in
any completion order), the final text is the index-ordered texts joined
by one space.  In particular the output is invariant under every
permutation of completion order. -/
theorem assembled_text_ordered_and_perm_invariant
    (texts : List String) (completions : List (Nat × String))
    (h : completions.Perm (withIdx 0 texts)) :
    assembleChunked texts.length completions = some (joinTexts texts) := by
  have hlk : ∀ i, lookupIdx i completions = lookupIdx i (withIdx 0 texts) := by
    intro i
    have hnd : (completions.map Prod.fst).Nodup :=
      ((h.map Prod.fst).nodup_iff).mpr (nodup_withIdx_keys 0 texts)
    exact lookupIdx_perm h hnd i
  have hmap : (List.range texts.length).map (fun i => lookupIdx i completions)
      = texts.map some := by
    rw [← range_map_get texts]
    refine List.map_congr_left ?_
    intro i _
    have h0 : lookupIdx (0 + i) (withIdx 0 texts) = texts.get? i :=
      lookupIdx_withIdx texts 0 i
    rw [hlk i, ← h0]
    norm_num
  rw [assembleChunked, hmap, seqOpts_map_some]
  rfl

/-- Witness for C1: the completion order `[2, 0, 1]` of three chunk texts
still assembles to the index-ordered, single-space-joined text. -/
theorem assembled_text_witness :
    (([(2, "c"), (0, "a"), (1, "b")] : List (Nat × String)).Perm
        (withIdx 0 ["a", "b", "c"])) ∧
    assembleChunked 3 [(2, "c"), (0, "a"), (1, "b")] = some "a b c" :=
  ⟨by decide,
   assembled_text_ordered_and_perm_invariant ["a", "b", "c"]
     [(2, "c"), (0, "a"), (1, "b")] (by decide)⟩

/-! ### Size routing and chunk splitting (`transcribe`, `_transcribe_chunked`)

`transcribe` (openai_engine.py lines 47–57) rejects clips above
`MAX_UPLOAD_SIZE`, sends clips up to `MAX_FILE_SIZE` as a single
full-clip request and otherwise splits. `_transcribe_chunked` cuts the
loaded audio with `for i in range(0, len(audio), CHUNK_LENGTH_MS):
chunk = audio[i:i + CHUNK_LENGTH_MS]`; a slice `audio[i:j]` of an audio
of `len` milliseconds covers the half-open range `[i, min j len)`. -/

/-- `MAX_FILE_SIZE = 25 * 1024 * 1024`: soft threshold that triggers splitting. -/
def MAX_FILE_SIZE : Nat := 25 * 1024 * 1024

/-- `MAX_UPLOAD_SIZE = 100 * 1024 * 1024`: hard ceiling, upload rejected above it. -/
def MAX_UPLOAD_SIZE : Nat := 100 * 1024 * 1024

/-- `CHUNK_LENGTH_MS = 10 * 60 * 1000`. -/
def CHUNK_LENGTH_MS : Nat := 10 * 60 * 1000

/-- Fuel-driven model of Python `range(start, stop, step)` for positive
`step`; the fuel only bounds the iteration count. -/
def pyRangeF : Nat → Nat → Nat → Nat → List Nat
  | 0, _, _, _ => []
  | fuel + 1, start, stop, step =>
      if start < stop then start :: pyRangeF fuel (start + step) stop step else []

/-- `range(start, stop, step)`; `stop - start` iterations are always enough. -/
def pyRange (start stop step : Nat) : List Nat :=
  pyRangeF (stop - start) start stop step

/-- The chunk ranges produced by the splitting loop of
`_transcribe_chunked`, as half-open millisecond ranges in list order. -/
def splitChunks (lenMs step : Nat) : List (Nat × Nat) :=
  (pyRange 0 lenMs step).map (fun i => (i, min (i + step) lenMs))

/-- `ceil(lenMs / step)` for positive `step`. -/
def chunkCount (lenMs step : Nat) : Nat := (lenMs + step - 1) / step

/-- The three routes of `OpenAIWhisperSTT.transcribe`. -/
inductive SplitOutcome
  | rejected
  | single (range : Nat × Nat)
  | chunked (cs : List (Nat × Nat))
  deriving DecidableEq

/-- Size routing of `transcribe` (lines 47–57). -/
def splitClip (size lenMs : Nat) : SplitOutcome :=
  if size > MAX_UPLOAD_SIZE then SplitOutcome.rejected
  else if size ≤ MAX_FILE_SIZE then SplitOutcome.single (0, lenMs)
  else SplitOutcome.chunked (splitChunks lenMs CHUNK_LENGTH_MS)

theorem pyRangeF_eq (step : Nat) (hstep : 0 < step) :
    ∀ fuel start stop, stop - start ≤ fuel →
      pyRangeF fuel start stop step
        = (List.range ((stop - start + step - 1) / step)).map (fun k => start + k * step) := by
  intro fuel
  induction fuel with
  | zero =>
      intro start stop h
      have hz : stop - start = 0 := by omega
      have hn : (stop - start + step - 1) / step = 0 := by
        rw [hz]; exact Nat.div_eq_of_lt (by omega)
      simp [pyRangeF, hn]
  | succ fuel ih =>
      intro start stop h
      by_cases hlt : start < stop
      · have hrec := ih (start + step) stop (by omega)
        have hm : (stop - start + step - 1) / step
            = (stop - (start + step) + step - 1) / step + 1 := by
          by_cases hd : stop - start ≤ step
          · have h1 : (stop - start + step - 1) / step = 1 :=
              Nat.div_eq_of_lt_le (by omega) (by omega)
            have h2 : stop - (start + step) + step - 1 < step := by omega
            rw [h1, Nat.div_eq_of_lt h2]
          · have e1 : stop - start + step - 1 = (stop - start - 1) + step := by omega
            have e2 : stop - (start + step) + step - 1 = stop - start - 1 := by omega
            rw [e1, e2, Nat.add_div_right _ hstep]
        simp only [pyRangeF, if_pos hlt]
        rw [hrec, hm, List.range_succ_eq_map, List.map_cons, List.map_map]
        congr 1
        · simp
        · refine List.map_congr_left ?_
          intro k _
          simp only [Function.comp, Nat.succ_eq_add_one]
          ring
      · have hz : stop - start = 0 := by omega
        have hn : (stop - start + step - 1) / step = 0 := by
          rw [hz]; exact Nat.div_eq_of_lt (by omega)
        simp [pyRangeF, hlt, hn]

theorem splitChunks_eq (len step : Nat) (hstep : 0 < step) :
    splitChunks len step
      = (List.range (chunkCount len step)).map
          (fun k => (k * step, min (k * step + step) len)) := by
  have h := pyRangeF_eq step hstep len 0 len (by omega)
  rw [splitChunks, pyRange, Nat.sub_zero, h, List.map_map]
  simp [chunkCount, Function.comp]

theorem lt_chunkCount_iff (len step k : Nat) (hstep : 0 < step) :
    k < chunkCount len step ↔ k * step < len := by
  have h1 : k < chunkCount len step ↔ (k + 1) * step ≤ len + step - 1 := by
    unfold chunkCount
    rw [Nat.lt_iff_add_one_le, Nat.le_div_iff_mul_le hstep]
  have hmul : (k + 1) * step = k * step + step := by ring
  rw [h1, hmul]
  generalize k * step = a
  omega

theorem chunkCount_mul_ge (len step : Nat) (hstep : 0 < step) :
    len ≤ chunkCount len step * step := by
  by_contra h
  push_neg at h
  have := (lt_chunkCount_iff len step (chunkCount len step) hstep).mpr h
  omega

/-- `cs` partitions the half-open range `[0, len)` into consecutive
nonempty subranges: the first starts at 0, adjacent ranges abut (no gap,
no overlap), the last ends at `len`. -/
def partitionsInterval (len : Nat) (cs : List (Nat × Nat)) : Prop :=
  (cs = [] ↔ len = 0) ∧
  (∀ i, ∀ hi : i < cs.length, (cs.get ⟨i, hi⟩).1 < (cs.get ⟨i, hi⟩).2) ∧
  (∀ hi : 0 < cs.length, (cs.get ⟨0, hi⟩).1 = 0) ∧
  (∀ i, ∀ hi : i + 1 < cs.length,
      (cs.get ⟨i, by omega⟩).2 = (cs.get ⟨i + 1, hi⟩).1) ∧
  (∀ i, ∀ hi : i < cs.length, i + 1 = cs.length → (cs.get ⟨i, hi⟩).2 = len)

theorem splitChunks_get (len step : Nat) (hstep : 0 < step) (k : Nat)
    (hk : k < (splitChunks len step).length) :
    (splitChunks len step).get ⟨k, hk⟩
      = (k * step, min (k * step + step) len) := by
  have h := splitChunks_eq len step hstep
  revert hk
  rw [h]
  intro hk
  simp [List.get_eq_getElem]

theorem splitChunks_length (len step : Nat) (hstep : 0 < step) :
    (splitChunks len step).length = chunkCount len step := by
  rw [splitChunks_eq len step hstep]
  simp

theorem splitChunks_partitions (len step : Nat) (hstep : 0 < step) :
    partitionsInterval len (splitChunks len step) := by
  have hlen := splitChunks_length len step hstep
  refine ⟨?_, ?_, ?_, ?_, ?_⟩
  · constructor
    · intro hnil
      have h0 : (splitChunks len step).length = 0 := by rw [hnil]; rfl
      by_contra hne
      have hpos : 0 < chunkCount len step :=
        (lt_chunkCount_iff len step 0 hstep).mpr (by omega)
      omega
    · intro h0
      subst h0
      have hcc : chunkCount 0 step = 0 := Nat.div_eq_of_lt (by omega)
      have hl : (splitChunks 0 step).length = 0 := by rw [hlen, hcc]
      exact List.length_eq_zero.mp hl
  · intro i hi
    rw [splitChunks_get len step hstep i hi]
    have hi2 : i < chunkCount len step := by omega
    have := (lt_chunkCount_iff len step i hstep).mp hi2
    dsimp only
    exact lt_min (by omega) this
  · intro hi
    rw [splitChunks_get len step hstep 0 hi]
    simp
  · intro i hi
    rw [splitChunks_get len step hstep i (by omega),
        splitChunks_get len step hstep (i + 1) hi]
    have hi2 : i + 1 < chunkCount len step := by omega
    have hlt := (lt_chunkCount_iff len step (i + 1) hstep).mp hi2
    have hms : i * step + step = (i + 1) * step := by ring
    dsimp only
    rw [hms]
    exact min_eq_left (le_of_lt hlt)
  · intro i hi hlast
    rw [splitChunks_get len step hstep i hi]
    have hcc : i + 1 = chunkCount len step := by omega
    have hge : len ≤ i * step + step := by
      have hmg := chunkCount_mul_ge len step hstep
      calc len ≤ chunkCount len step * step := hmg
        _ = (i + 1) * step := by rw [hcc]
        _ = i * step + step := by ring
    dsimp only
    exact min_eq_right hge

/-- Observable operations of the pipeline, used to state ordering and
short-circuit properties. -/
inductive PipeEvent
  | gateDuration
  | gateRMS
  | diarizeCall
  | backendCall
  | chunkSplit
  | raiseSizeError
  | raiseAttrError
  deriving DecidableEq

/-- The operations `OpenAIWhisperSTT.transcribe` performs, in order:
reject over the hard ceiling, one backend call up to the soft threshold,
otherwise split followed by one backend call per chunk.  No duration/RMS
quality check appears anywhere in `openai_engine.py`. -/
def openaiEvents (size lenMs : Nat) : List PipeEvent :=
  if size > MAX_UPLOAD_SIZE then [PipeEvent.raiseSizeError]
  else if size ≤ MAX_FILE_SIZE then [PipeEvent.backendCall]
  else PipeEvent.chunkSplit ::
    List.replicate (chunkCount lenMs CHUNK_LENGTH_MS) PipeEvent.backendCall

theorem maxFile_le_maxUpload : MAX_FILE_SIZE ≤ MAX_UPLOAD_SIZE := by
  norm_num [MAX_FILE_SIZE, MAX_UPLOAD_SIZE]

theorem chunk_length_pos : 0 < CHUNK_LENGTH_MS := by norm_num [CHUNK_LENGTH_MS]

/-- **C2 (amended).** Up to the soft threshold the clip is sent as one
full-clip unit; above it — provided the clip does not exceed the 100MB
hard ceiling, where `transcribe` rejects instead of splitting — the clip
is cut into fixed `CHUNK_LENGTH_MS` windows whose ranges partition
`[0, lenMs)` with no gaps and no overlaps, every non-final window exactly
`CHUNK_LENGTH_MS` long, and the window count is `ceil(lenMs / CHUNK_LENGTH_MS)`. -/
theorem split_clip_chunks_spec (size lenMs : Nat) :
    (size ≤ MAX_FILE_SIZE → splitClip size lenMs = SplitOutcome.single (0, lenMs)) ∧
    (MAX_FILE_SIZE < size → size ≤ MAX_UPLOAD_SIZE →
      splitClip size lenMs = SplitOutcome.chunked (splitChunks lenMs CHUNK_LENGTH_MS) ∧
      (splitChunks lenMs CHUNK_LENGTH_MS).length = chunkCount lenMs CHUNK_LENGTH_MS ∧
      partitionsInterval lenMs (splitChunks lenMs CHUNK_LENGTH_MS) ∧
      (∀ k, ∀ hk : k < (splitChunks lenMs CHUNK_LENGTH_MS).length,
          (splitChunks lenMs CHUNK_LENGTH_MS).get ⟨k, hk⟩
            = (k * CHUNK_LENGTH_MS, min (k * CHUNK_LENGTH_MS + CHUNK_LENGTH_MS) lenMs)) ∧
      (∀ k, ∀ hk : k + 1 < (splitChunks lenMs CHUNK_LENGTH_MS).length,
          ((splitChunks lenMs CHUNK_LENGTH_MS).get ⟨k, by omega⟩).2
            - ((splitChunks lenMs CHUNK_LENGTH_MS).get ⟨k, by omega⟩).1
            = CHUNK_LENGTH_MS)) := by
  have hstep := chunk_length_pos
  constructor
  · intro h
    have hno : ¬ size > MAX_UPLOAD_SIZE := by
      have := maxFile_le_maxUpload; omega
    simp only [splitClip, if_neg hno, if_pos h]
  · intro h1 h2
    have hno : ¬ size > MAX_UPLOAD_SIZE := by omega
    have hno2 : ¬ size ≤ MAX_FILE_SIZE := by omega
    refine ⟨by simp only [splitClip, if_neg hno, if_neg hno2], ?_, ?_, ?_, ?_⟩
    · exact splitChunks_length lenMs CHUNK_LENGTH_MS hstep
    · exact splitChunks_partitions lenMs CHUNK_LENGTH_MS hstep
    · intro k hk
      exact splitChunks_get lenMs CHUNK_LENGTH_MS hstep k hk
    · intro k hk
      rw [splitChunks_get lenMs CHUNK_LENGTH_MS hstep k (by omega)]
      have hk2 : k + 1 < chunkCount lenMs CHUNK_LENGTH_MS := by
        rw [← splitChunks_length lenMs CHUNK_LENGTH_MS hstep]; omega
      have hlt := (lt_chunkCount_iff lenMs CHUNK_LENGTH_MS (k + 1) hstep).mp hk2
      have hms : k * CHUNK_LENGTH_MS + CHUNK_LENGTH_MS = (k + 1) * CHUNK_LENGTH_MS := by
        ring
      have h3 : k * CHUNK_LENGTH_MS + CHUNK_LENGTH_MS < lenMs := by
        rw [hms]; exact hlt
      dsimp only
      rw [min_eq_left (le_of_lt h3)]
      omega

/-- **C2 counterexample.** A 1500-second clip one byte over the 100MB
ceiling satisfies `size > MAX_FILE_SIZE`, yet `transcribe` rejects it
instead of returning the fixed-duration windows the claim promises for
every clip above `maxBytes`. -/
theorem split_clip_over_ceiling_no_chunks :
    MAX_FILE_SIZE < 104857601 ∧
    splitClip 104857601 1500000 = SplitOutcome.rejected ∧
    SplitOutcome.rejected ≠ SplitOutcome.chunked (splitChunks 1500000 CHUNK_LENGTH_MS) :=
  ⟨by decide, by decide, by decide⟩

/-- Witness for amended C2: a 30MB clip is below the soft threshold route
and above it; Scenario A: 1500000 ms at 600000 ms windows gives the three
chunks `[0,600000) [600000,1200000) [1200000,1500000)`. -/
theorem split_clip_chunks_witness :
    splitClip 1000 1500000 = SplitOutcome.single (0, 1500000) ∧
    MAX_FILE_SIZE < 31457280 ∧ 31457280 ≤ MAX_UPLOAD_SIZE ∧
    splitClip 31457280 1500000 = SplitOutcome.chunked (splitChunks 1500000 CHUNK_LENGTH_MS) ∧
    splitChunks 1500000 CHUNK_LENGTH_MS
      = [(0, 600000), (600000, 1200000), (1200000, 1500000)] :=
  ⟨(split_clip_chunks_spec 1000 1500000).1 (by decide),
   by decide, by decide,
   ((split_clip_chunks_spec 31457280 1500000).2 (by decide) (by decide)).1,
   by decide⟩

/-- **C5.** Above the 100MB hard ceiling `transcribe` raises before any
splitting and before any backend call; between the soft 25MB threshold
and the ceiling the clip is split rather than rejected. -/
theorem size_ceiling_fatal_vs_soft_threshold (size lenMs : Nat) :
    (MAX_UPLOAD_SIZE < size →
      splitClip size lenMs = SplitOutcome.rejected ∧
      openaiEvents size lenMs = [PipeEvent.raiseSizeError] ∧
      PipeEvent.chunkSplit ∉ openaiEvents size lenMs ∧
      PipeEvent.backendCall ∉ openaiEvents size lenMs) ∧
    (MAX_FILE_SIZE < size → size ≤ MAX_UPLOAD_SIZE →
      splitClip size lenMs = SplitOutcome.chunked (splitChunks lenMs CHUNK_LENGTH_MS) ∧
      PipeEvent.raiseSizeError ∉ openaiEvents size lenMs ∧
      PipeEvent.chunkSplit ∈ openaiEvents size lenMs) := by
  constructor
  · intro h
    have hgt : size > MAX_UPLOAD_SIZE := h
    refine ⟨by simp only [splitClip, if_pos hgt], ?_, ?_, ?_⟩ <;>
      simp [openaiEvents, if_pos hgt]
  · intro h1 h2
    have hno : ¬ size > MAX_UPLOAD_SIZE := by omega
    have hno2 : ¬ size ≤ MAX_FILE_SIZE := by omega
    refine ⟨by simp only [splitClip, if_neg hno, if_neg hno2], ?_, ?_⟩ <;>
      simp [openaiEvents, if_neg hno, if_neg hno2, List.mem_replicate]

/-- Witness for C5: one byte over the ceiling is rejected with no split
and no backend call; a 30MB clip is split, not rejected. -/
theorem size_ceiling_witness :
    MAX_UPLOAD_SIZE < 104857601 ∧
    splitClip 104857601 1500000 = SplitOutcome.rejected ∧
    PipeEvent.backendCall ∉ openaiEvents 104857601 1500000 ∧
    PipeEvent.raiseSizeError ∉ openaiEvents 31457280 1500000 :=
  ⟨by decide,
   ((size_ceiling_fatal_vs_soft_threshold 104857601 1500000).1 (by decide)).1,
   ((size_ceiling_fatal_vs_soft_threshold 104857601 1500000).1 (by decide)).2.2.2,
   ((size_ceiling_fatal_vs_soft_threshold 31457280 1500000).2 (by decide) (by decide)).2.1⟩

/-! ### Chunk dispatch (`_transcribe_chunked` lines 163–175)

All chunk futures are submitted up front (`futures =
{executor.submit(self._process_single_chunk, arg): arg[0] for arg in
chunk_args}`) and submitted work is never cancelled, so every chunk is
attempted exactly once.  The consumption loop `for future in
as_completed(futures): idx, text = future.result(); results[idx] = text`
has no try/except: the first failed future encountered re-raises inside
`_transcribe_chunked`, ending the loop and abandoning the local
`results` dict. -/

/-- Outcome of one chunk's backend call. -/
inductive ChunkOutcome
  | ok (text : String)
  | err (msg : String)
  deriving DecidableEq

/-- `chunk_args = [(idx, chunk, len(chunks)) for idx, chunk in enumerate(chunks)]`,
keeping index and payload. -/
def chunkArgs (chunks : List String) : List (Nat × String) := withIdx 0 chunks

/-- The future keys: one submission per chunk, keyed by chunk index. -/
def submittedIndices (chunks : List String) : List Nat :=
  (chunkArgs chunks).map Prod.fst

/-- The consumption loop over futures in completion order: each ok result
is written into the dict; the first error re-raises, returning the
exception together with the dict contents at that moment. -/
def dispatchLoop : List (Nat × ChunkOutcome) → List (Nat × String) →
    Option String × List (Nat × String)
  | [], acc => (none, acc)
  | (i, ChunkOutcome.ok t) :: rest, acc => dispatchLoop rest (acc ++ [(i, t)])
  | (_, ChunkOutcome.err e) :: _, acc => (some e, acc)

/-- The first error in completion order, if any. -/
def firstErrorIn : List (Nat × ChunkOutcome) → Option String
  | [] => none
  | (_, ChunkOutcome.ok _) :: rest => firstErrorIn rest
  | (_, ChunkOutcome.err e) :: _ => some e

/-- The ok results completed and consumed before the first error. -/
def okBeforeError : List (Nat × ChunkOutcome) → List (Nat × String)
  | [] => []
  | (i, ChunkOutcome.ok t) :: rest => (i, t) :: okBeforeError rest
  | (_, ChunkOutcome.err _) :: _ => []

theorem dispatchLoop_eq (completions : List (Nat × ChunkOutcome))
    (acc : List (Nat × String)) :
    dispatchLoop completions acc
      = (firstErrorIn completions, acc ++ okBeforeError completions) := by
  induction completions generalizing acc with
  | nil => simp [dispatchLoop, firstErrorIn, okBeforeError]
  | cons c rest ih =>
      obtain ⟨i, o⟩ := c
      cases o with
      | ok t => simp [dispatchLoop, firstErrorIn, okBeforeError, ih]
      | err e => simp [dispatchLoop, firstErrorIn, okBeforeError]

theorem okBeforeError_length_of_no_error (completions : List (Nat × ChunkOutcome))
    (h : firstErrorIn completions = none) :
    (okBeforeError completions).length = completions.length := by
  induction completions with
  | nil => rfl
  | cons c rest ih =>
      obtain ⟨i, o⟩ := c
      cases o with
      | ok t =>
          simp only [firstErrorIn] at h
          simp [okBeforeError, ih h]
      | err e => simp [firstErrorIn] at h

/-- **C3 (amended).** Every chunk is submitted to the worker pool exactly
once, keyed by its index, independent of any outcome (submitted work is
never cancelled); but consumption is fail-fast: the dispatch loop
re-raises the first error in completion order, and the result map then
holds exactly the ok results consumed before that failure — the sibling
results completing after it are not retrievable from the map.  Only when
every chunk succeeds does the map hold all `N` results. -/
theorem dispatch_submits_all_but_consumes_fail_fast
    (chunks : List String) (completions : List (Nat × ChunkOutcome)) :
    (∀ i, i < chunks.length → (submittedIndices chunks).count i = 1) ∧
    (∀ i, ¬ i < chunks.length → (submittedIndices chunks).count i = 0) ∧
    dispatchLoop completions []
      = (firstErrorIn completions, okBeforeError completions) ∧
    (firstErrorIn completions = none →
      (dispatchLoop completions []).2.length = completions.length) := by
  have hidx : submittedIndices chunks = List.range' 0 chunks.length :=
    withIdx_map_fst 0 chunks
  have hmem : ∀ i, i ∈ submittedIndices chunks ↔ i < chunks.length := by
    intro i
    rw [hidx, List.mem_range'_1]
    omega
  refine ⟨?_, ?_, ?_, ?_⟩
  · intro i hi
    refine List.count_eq_one_of_mem ?_ ((hmem i).mpr hi)
    rw [hidx]
    exact List.nodup_range' 0 chunks.length
  · intro i hi
    exact List.count_eq_zero.mpr (fun hin => hi ((hmem i).mp hin))
  · simpa using dispatchLoop_eq completions []
  · intro h
    rw [dispatchLoop_eq completions []]
    simpa using okBeforeError_length_of_no_error completions h

/-- **C3 counterexample.** Two chunks, chunk 0's backend call fails and
its future is consumed first: the dispatch re-raises the error and chunk
1's ok result is not retrievable from the result map, refuting "the
other N−1 results remain retrievable". -/
theorem dispatch_sibling_result_lost :
    (dispatchLoop [(0, ChunkOutcome.err "E"), (1, ChunkOutcome.ok "hello")] []).1
      = some "E" ∧
    lookupIdx 1
      (dispatchLoop [(0, ChunkOutcome.err "E"), (1, ChunkOutcome.ok "hello")] []).2
      = none :=
  ⟨rfl, rfl⟩

/-- Witness for amended C3: both submitted chunks are counted once, an
out-of-range index zero times; with chunk 1 completing ok before chunk
0's failure, the loop returns the error plus only chunk 1's entry; an
all-ok run keeps every result. -/
theorem dispatch_fail_fast_witness :
    (submittedIndices ["c0", "c1"]).count 0 = 1 ∧
    (submittedIndices ["c0", "c1"]).count 5 = 0 ∧
    dispatchLoop [(1, ChunkOutcome.ok "y"), (0, ChunkOutcome.err "E")] []
      = (some "E", [(1, "y")]) ∧
    (dispatchLoop [(0, ChunkOutcome.ok "a")] []).2.length = 1 :=
  ⟨(dispatch_submits_all_but_consumes_fail_fast ["c0", "c1"] []).1 0 (by decide),
   (dispatch_submits_all_but_consumes_fail_fast ["c0", "c1"] []).2.1 5 (by decide),
   ((dispatch_submits_all_but_consumes_fail_fast ["c0", "c1"]
      [(1, ChunkOutcome.ok "y"), (0, ChunkOutcome.err "E")]).2.2.1).trans (by decide),
   ((dispatch_submits_all_but_consumes_fail_fast ["c0"]
      [(0, ChunkOutcome.ok "a")]).2.2.2 (by decide)).trans (by decide)⟩

/-! ### Quality gate and pipeline paths

`src/core/config.py` sets `MIN_AUDIO_LENGTH = 1.0` and
`SILENCE_RMS_THRESHOLD = 0.01`; `HFWhisperSTT.transcribe`
(`src/core/engine/hf_engine.py` lines 62–115) checks both before its
transcription call and returns an empty-text result when either fails.
`stt_engine.py` does `from config import STTConfig`, i.e. imports
`src/config.py`, whose `STTConfig` defines no duration or RMS threshold;
`MedicalSTT.transcribe` (lines 89–92) routes to
`_transcribe_with_diarization` or `_transcribe_simple`, and
`_transcribe_with_diarization` (lines 195–324) performs no duration or
RMS check at all.  `openai_engine.py` has no quality gate either. -/

/-- `MIN_AUDIO_LENGTH = 1.0` (src/core/config.py line 40). -/
def MIN_AUDIO_LENGTH : ℚ := 1

/-- `SILENCE_RMS_THRESHOLD = 0.01` (src/core/config.py line 41). -/
def SILENCE_RMS_THRESHOLD : ℚ := 1 / 100

/-- The checks and calls of `HFWhisperSTT.transcribe` on a clip of the
given duration (seconds) and RMS energy, in program order. -/
def hfEngineEvents (dur rms : ℚ) : List PipeEvent :=
  if dur < MIN_AUDIO_LENGTH then [PipeEvent.gateDuration]
  else if rms < SILENCE_RMS_THRESHOLD then [PipeEvent.gateDuration, PipeEvent.gateRMS]
  else [PipeEvent.gateDuration, PipeEvent.gateRMS, PipeEvent.backendCall]

/-- The text `HFWhisperSTT.transcribe` returns, given the text the
backend would produce for the clip. -/
def hfEngineText (dur rms : ℚ) (backendText : String) : String :=
  if dur < MIN_AUDIO_LENGTH then ""
  else if rms < SILENCE_RMS_THRESHOLD then ""
  else backendText

/-- The calls `_transcribe_with_diarization` makes for a clip of the
given duration and RMS: diarization (when a pipeline is loaded) and then
the transcription call, never consulting either measurement as a gate. -/
def diarizationPathEvents (hasPipeline : Bool) (_dur _rms : ℚ) : List PipeEvent :=
  (if hasPipeline then [PipeEvent.diarizeCall] else []) ++ [PipeEvent.backendCall]

/-- `_transcribe_simple` (lines 100–134): evaluating the gate comparison
`audio_duration < STTConfig.MIN_AUDIO_DURATION` raises `AttributeError`
(see `sttSimpleGate` below), so the call aborts before any verdict or
backend call. -/
def sttSimpleEvents (_dur _rms : ℚ) : List PipeEvent := [PipeEvent.raiseAttrError]

/-- `MedicalSTT.transcribe` (lines 89–92): route on `enable_diarization`. -/
def medicalTranscribeEvents (enableDiarization hasPipeline : Bool)
    (dur rms : ℚ) : List PipeEvent :=
  if enableDiarization then diarizationPathEvents hasPipeline dur rms
  else sttSimpleEvents dur rms

/-- **C4 (amended).** The duration/RMS quality gate exists only on the
non-diarization local path: `HFWhisperSTT.transcribe` runs both checks
before its transcription call, a failing check yields empty text with
zero backend calls, and a backend call happens exactly when both checks
pass, always after the gate checks.  The diarization path and the OpenAI
API engine perform no quality-gate check and invoke diarization /
chunking / backend calls regardless of duration and RMS. -/
theorem quality_gate_only_on_simple_local_path (dur rms : ℚ)
    (backendText : String) (size lenMs : Nat) (hasPipeline : Bool) :
    ((dur < MIN_AUDIO_LENGTH ∨ rms < SILENCE_RMS_THRESHOLD) →
      PipeEvent.backendCall ∉ hfEngineEvents dur rms ∧
      hfEngineText dur rms backendText = "") ∧
    (PipeEvent.backendCall ∈ hfEngineEvents dur rms ↔
      (MIN_AUDIO_LENGTH ≤ dur ∧ SILENCE_RMS_THRESHOLD ≤ rms)) ∧
    (∀ i j : Fin (hfEngineEvents dur rms).length,
      (hfEngineEvents dur rms).get i = PipeEvent.backendCall →
      ((hfEngineEvents dur rms).get j = PipeEvent.gateDuration ∨
        (hfEngineEvents dur rms).get j = PipeEvent.gateRMS) →
      (j : Nat) < (i : Nat)) ∧
    (PipeEvent.gateDuration ∉ diarizationPathEvents hasPipeline dur rms ∧
      PipeEvent.gateRMS ∉ diarizationPathEvents hasPipeline dur rms ∧
      PipeEvent.backendCall ∈ diarizationPathEvents hasPipeline dur rms) ∧
    (PipeEvent.gateDuration ∉ openaiEvents size lenMs ∧
      PipeEvent.gateRMS ∉ openaiEvents size lenMs) := by
  have hq : ¬ dur < MIN_AUDIO_LENGTH → MIN_AUDIO_LENGTH ≤ dur := le_of_not_lt
  refine ⟨?_, ?_, ?_, ?_, ?_⟩
  · intro h
    rcases h with h | h
    · simp [hfEngineEvents, hfEngineText, if_pos h]
    · by_cases hd : dur < MIN_AUDIO_LENGTH
      · simp [hfEngineEvents, hfEngineText, if_pos hd]
      · simp [hfEngineEvents, hfEngineText, if_neg hd, if_pos h]
  · constructor
    · intro hmem
      by_cases hd : dur < MIN_AUDIO_LENGTH
      · rw [hfEngineEvents, if_pos hd] at hmem
        simp at hmem
      · by_cases hr : rms < SILENCE_RMS_THRESHOLD
        · rw [hfEngineEvents, if_neg hd, if_pos hr] at hmem
          simp at hmem
        · exact ⟨le_of_not_lt hd, le_of_not_lt hr⟩
    · intro h
      rw [hfEngineEvents, if_neg (not_lt.mpr h.1), if_neg (not_lt.mpr h.2)]
      simp
  · by_cases hd : dur < MIN_AUDIO_LENGTH
    · rw [hfEngineEvents, if_pos hd]; decide
    · by_cases hr : rms < SILENCE_RMS_THRESHOLD
      · rw [hfEngineEvents, if_neg hd, if_pos hr]; decide
      · rw [hfEngineEvents, if_neg hd, if_neg hr]; decide
  · cases hasPipeline <;> simp [diarizationPathEvents]
  · by_cases h1 : size > MAX_UPLOAD_SIZE
    · simp [openaiEvents, if_pos h1]
    · by_cases h2 : size ≤ MAX_FILE_SIZE
      · simp [openaiEvents, if_neg h1, if_pos h2]
      · constructor <;>
          simp [openaiEvents, if_neg h1, if_neg h2, List.mem_replicate]

/-- **C4 counterexample.** A degenerate clip (duration 0.5s, RMS 0.002,
rejected by the gate wherever the gate exists) still causes a backend
call on the diarization path of `MedicalSTT.transcribe`, and no
duration/RMS check occurs on that path — so the quality gate does not
run before every backend call on every pipeline configuration. -/
theorem diarization_path_has_no_gate :
    (1 / 2 : ℚ) < MIN_AUDIO_LENGTH ∧ (1 / 500 : ℚ) < SILENCE_RMS_THRESHOLD ∧
    PipeEvent.backendCall ∈ medicalTranscribeEvents true true (1 / 2) (1 / 500) ∧
    PipeEvent.gateDuration ∉ medicalTranscribeEvents true true (1 / 2) (1 / 500) ∧
    PipeEvent.gateRMS ∉ medicalTranscribeEvents true true (1 / 2) (1 / 500) := by
  refine ⟨by norm_num [MIN_AUDIO_LENGTH], by norm_num [SILENCE_RMS_THRESHOLD], ?_, ?_, ?_⟩ <;>
    simp [medicalTranscribeEvents, diarizationPathEvents]

/-- Witness for amended C4: a 0.5s, RMS 0.002 clip on the hf path makes
no backend call and yields empty text; a 5s, RMS 1 clip reaches the
backend. -/
theorem quality_gate_witness :
    ((1 / 2 : ℚ) < MIN_AUDIO_LENGTH ∨ (1 / 500 : ℚ) < SILENCE_RMS_THRESHOLD) ∧
    (PipeEvent.backendCall ∉ hfEngineEvents (1 / 2) (1 / 500) ∧
      hfEngineText (1 / 2) (1 / 500) "hello" = "") ∧
    PipeEvent.backendCall ∈ hfEngineEvents 5 1 :=
  ⟨Or.inl (by norm_num [MIN_AUDIO_LENGTH]),
   (quality_gate_only_on_simple_local_path (1 / 2) (1 / 500) "hello" 0 0 true).1
     (Or.inl (by norm_num [MIN_AUDIO_LENGTH])),
   (quality_gate_only_on_simple_local_path 5 1 "hello" 0 0 true).2.1.mpr
     ⟨by norm_num [MIN_AUDIO_LENGTH], by norm_num [SILENCE_RMS_THRESHOLD]⟩⟩

/-! ### The unresolvable gate thresholds of `_transcribe_simple` -/

/-- Python attribute lookup of a float-valued class attribute on the
`STTConfig` of `src/config.py` (the module `stt_engine.py` imports):
`VAD_THRESHOLD = 0.5` is its only float attribute; any other name —
in particular `MIN_AUDIO_DURATION` and `SILENCE_RMS_THRESHOLD`, which
`_transcribe_simple` reads — resolves to nothing (`AttributeError`). -/
def getSTTConfigNum (name : String) : Option ℚ :=
  if name = "VAD_THRESHOLD" then some (1 / 2) else none

/-- Verdict of the duration/RMS quality gate. -/
inductive GateVerdict
  | tooShort
  | tooQuiet
  | proceed
  deriving DecidableEq

/-- `_transcribe_simple` (stt_engine.py lines 106–134) with attribute
lookup explicit: `audio_duration < STTConfig.MIN_AUDIO_DURATION` first
resolves the attribute, and an unresolved attribute raises
`AttributeError` instead of producing any verdict.  On a gate-failing
clip the intended return value is an empty text. -/
def sttSimpleGate (dur rms : ℚ) : Except String (GateVerdict × String) :=
  match getSTTConfigNum "MIN_AUDIO_DURATION" with
  | none => Except.error "AttributeError: MIN_AUDIO_DURATION"
  | some minDur =>
    if dur < minDur then Except.ok (GateVerdict.tooShort, "")
    else
      match getSTTConfigNum "SILENCE_RMS_THRESHOLD" with
      | none => Except.error "AttributeError: SILENCE_RMS_THRESHOLD"
      | some thr =>
        if rms < thr then Except.ok (GateVerdict.tooQuiet, "")
        else Except.ok (GateVerdict.proceed, "")

/-- The same gate as `HFWhisperSTT.transcribe` implements it against
`core.config.STTConfig`, whose thresholds do resolve. -/
def hfGateVerdict (dur rms : ℚ) : GateVerdict :=
  if dur < MIN_AUDIO_LENGTH then GateVerdict.tooShort
  else if rms < SILENCE_RMS_THRESHOLD then GateVerdict.tooQuiet
  else GateVerdict.proceed

/-- **C6 (code bug).** For every clip — a 0.5-second one, a silent one —
`_transcribe_simple` raises `AttributeError` while evaluating the gate,
because the `STTConfig` it imports (src/config.py) defines neither
`MIN_AUDIO_DURATION` nor `SILENCE_RMS_THRESHOLD`; no `too_short` or
`too_quiet` verdict and no empty transcript is ever returned.  The
intended behavior is exactly what `hf_engine.py` implements with the
thresholds of `core/config.py`: verdict `tooShort` below 1.0s, verdict
`tooQuiet` below RMS 0.01, with empty text. -/
theorem stt_simple_gate_always_attribute_error (dur rms : ℚ) :
    sttSimpleGate dur rms = Except.error "AttributeError: MIN_AUDIO_DURATION" ∧
    getSTTConfigNum "MIN_AUDIO_DURATION" = none ∧
    getSTTConfigNum "SILENCE_RMS_THRESHOLD" = none ∧
    hfGateVerdict (1 / 2) 1 = GateVerdict.tooShort ∧
    hfGateVerdict 5 (1 / 500) = GateVerdict.tooQuiet ∧
    hfEngineText (1 / 2) 1 "backend" = "" ∧
    hfEngineText 5 (1 / 500) "backend" = "" :=
  ⟨rfl, rfl, rfl,
   by norm_num [hfGateVerdict, MIN_AUDIO_LENGTH],
   by norm_num [hfGateVerdict, MIN_AUDIO_LENGTH, SILENCE_RMS_THRESHOLD],
   by norm_num [hfEngineText, MIN_AUDIO_LENGTH],
   by norm_num [hfEngineText, MIN_AUDIO_LENGTH, SILENCE_RMS_THRESHOLD]⟩

/-! ### Speaker alignment (`_find_speaker`, stt_engine.py lines 326–338) -/

/-- A diarization turn: speaker label with closed time interval. -/
structure SpeakerTurn where
  speaker : String
  tStart : ℚ
  tEnd : ℚ
  deriving DecidableEq

/-- Chronological order of turns by start time. -/
def turnLE (a b : SpeakerTurn) : Prop := a.tStart ≤ b.tStart

instance : DecidableRel turnLE := fun a b =>
  inferInstanceAs (Decidable (a.tStart ≤ b.tStart))

/-- `chunk_mid = (chunk_start + chunk_end) / 2`. -/
def midTime (a b : ℚ) : ℚ := (a + b) / 2

/-- `segment["start"] <= chunk_mid <= segment["end"]`. -/
def turnContains (s : SpeakerTurn) (m : ℚ) : Prop := s.tStart ≤ m ∧ m ≤ s.tEnd

instance (s : SpeakerTurn) (m : ℚ) : Decidable (turnContains s m) :=
  inferInstanceAs (Decidable (And _ _))

/-- The `for segment in speaker_segments` loop: the first turn whose
closed interval contains `m`, in list order. -/
def findTurn (m : ℚ) : List SpeakerTurn → Option SpeakerTurn
  | [] => none
  | s :: rest => if turnContains s m then some s else findTurn m rest

/-- `_find_speaker(chunk_start, chunk_end, speaker_segments)`: speaker of
the first turn containing the midpoint, else the first turn's speaker,
else the literal default. -/
def findSpeaker (cs ce : ℚ) (segs : List SpeakerTurn) : String :=
  match findTurn (midTime cs ce) segs with
  | some s => s.speaker
  | none =>
    match segs with
    | s0 :: _ => s0.speaker
    | [] => "SPEAKER_00"

theorem findTurn_of_first (m : ℚ) :
    ∀ (segs : List SpeakerTurn) (i : Nat) (hi : i < segs.length),
      turnContains (segs.get ⟨i, hi⟩) m →
      (∀ j, j < i → ∀ hj : j < segs.length, ¬ turnContains (segs.get ⟨j, hj⟩) m) →
      findTurn m segs = some (segs.get ⟨i, hi⟩) := by
  intro segs
  induction segs with
  | nil => intro i hi; simp at hi
  | cons s rest ih =>
      intro i hi hc hfirst
      cases i with
      | zero =>
          simp only [List.get] at hc
          simp [findTurn, if_pos hc]
      | succ i =>
          have h0 : ¬ turnContains s m := by
            have h := hfirst 0 (Nat.succ_pos i) (by simp)
            simpa using h
          simp only [findTurn, if_neg h0, List.get_cons_succ]
          simp only [List.get_cons_succ] at hc
          refine ih i (by simpa using hi) hc ?_
          intro j hj hjl
          have h := hfirst (j + 1) (by omega) (by simpa using hjl)
          simpa using h

theorem findTurn_none_of_all (m : ℚ) (segs : List SpeakerTurn)
    (h : ∀ s ∈ segs, ¬ turnContains s m) : findTurn m segs = none := by
  induction segs with
  | nil => rfl
  | cons s rest ih =>
      rw [findTurn, if_neg (h s (List.mem_cons_self s rest))]
      exact ih (fun t ht => h t (List.mem_cons_of_mem s ht))

/-- **C7.** For every span and every nonempty chronologically ordered
turn list, `_find_speaker` assigns the speaker of the first turn whose
closed interval contains the span midpoint `(start+end)/2`, and falls
back to the first turn's speaker when no turn contains the midpoint. -/
theorem find_speaker_midpoint_rule (cs ce : ℚ) (segs : List SpeakerTurn)
    (hne : segs ≠ []) (hsorted : List.Sorted turnLE segs) :
    (∀ i, ∀ hi : i < segs.length,
        turnContains (segs.get ⟨i, hi⟩) (midTime cs ce) →
        (∀ j, j < i → ∀ hj : j < segs.length,
            ¬ turnContains (segs.get ⟨j, hj⟩) (midTime cs ce)) →
        findSpeaker cs ce segs = (segs.get ⟨i, hi⟩).speaker) ∧
    ((∀ s ∈ segs, ¬ turnContains s (midTime cs ce)) →
        findSpeaker cs ce segs = (segs.head hne).speaker) := by
  constructor
  · intro i hi hc hfirst
    rw [findSpeaker.eq_def, findTurn_of_first (midTime cs ce) segs i hi hc hfirst]
  · intro h
    rw [findSpeaker.eq_def, findTurn_none_of_all (midTime cs ce) segs h]
    cases segs with
    | nil => exact absurd rfl hne
    | cons s rest => rfl

/-- Witness for C7 — Scenario B: span (12, 15) with turns
`[(A,0,10), (B,10,20)]` has midpoint 13.5 inside B's interval and not
inside A's, so B is assigned; and a span whose midpoint (150) no turn
contains falls back to A, the first turn's speaker. -/
theorem find_speaker_witness :
    findSpeaker 12 15 [⟨"A", 0, 10⟩, ⟨"B", 10, 20⟩] = "B" ∧
    findSpeaker 100 200 [⟨"A", 0, 10⟩, ⟨"B", 10, 20⟩] = "A" := by
  have hsort : List.Sorted turnLE [⟨"A", 0, 10⟩, ⟨"B", 10, 20⟩] := by
    norm_num [List.sorted_cons, turnLE]
  constructor
  · refine (find_speaker_midpoint_rule 12 15 [⟨"A", 0, 10⟩, ⟨"B", 10, 20⟩]
        (by simp) hsort).1 1 (by simp) ?_ ?_
    · show turnContains ⟨"B", 10, 20⟩ (midTime 12 15)
      norm_num [turnContains, midTime]
    · intro j hj hjl
      have hj0 : j = 0 := by omega
      subst hj0
      show ¬ turnContains ⟨"A", 0, 10⟩ (midTime 12 15)
      norm_num [turnContains, midTime]
  · refine (find_speaker_midpoint_rule 100 200 [⟨"A", 0, 10⟩, ⟨"B", 10, 20⟩]
        (by simp) hsort).2 ?_
    intro s hs
    fin_cases hs <;> norm_num [turnContains, midTime]

/-! ### Worker temp-file lifecycle (`_process_single_chunk`, lines 96–135)

The worker creates `tempfile.NamedTemporaryFile(suffix=".mp3",
delete=False)`, runs export + API call inside `try:`, and its `finally:`
does `try: os.unlink(temp_path) except: pass`. -/

/-- Worker-local filesystem state: whether this worker's temp file exists. -/
structure FsState where
  tempExists : Bool
  deriving DecidableEq

/-- Outcome of the try-block body: the export and the API call may each
raise; any other exception is covered by either error case. -/
inductive BodyOutcome
  | ok (text : String)
  | exportErr (msg : String)
  | apiErr (msg : String)
  deriving DecidableEq

/-- `tempfile.NamedTemporaryFile(suffix=".mp3", delete=False)`. -/
def createTemp (s : FsState) : FsState := { s with tempExists := true }

/-- `os.unlink(temp_path)`: removes the file, raises if it is absent. -/
def osUnlink (s : FsState) : FsState × Except String Unit :=
  if s.tempExists then ({ s with tempExists := false }, Except.ok ())
  else (s, Except.error "FileNotFoundError")

/-- `try: act() except: pass` — the state change is kept, any exception
is swallowed. -/
def trySwallow (act : FsState → FsState × Except String Unit) (s : FsState) : FsState :=
  (act s).1

/-- Python `try/finally`: the finalizer runs on the normal and on the
exceptional exit alike, then the body's outcome is propagated. -/
def tryFinallyRun (body : FsState → FsState × Except String α)
    (fin : FsState → FsState) (s : FsState) : FsState × Except String α :=
  let r := body s
  (fin r.1, r.2)

/-- The try-block of `_process_single_chunk`: `chunk.export(temp_path)`
then the transcription API call; a success returns `(idx, text)`. -/
def chunkBody (idx : Nat) (b : BodyOutcome) (s : FsState) :
    FsState × Except String (Nat × String) :=
  match b with
  | BodyOutcome.ok t => (s, Except.ok (idx, t))
  | BodyOutcome.exportErr e => (s, Except.error e)
  | BodyOutcome.apiErr e => (s, Except.error e)

/-- `_process_single_chunk`: create the temp file, run the body under
`try/finally` with the swallowed-unlink finalizer. -/
def processSingleChunk (idx : Nat) (b : BodyOutcome) (s : FsState) :
    FsState × Except String (Nat × String) :=
  tryFinallyRun (chunkBody idx b) (trySwallow osUnlink) (createTemp s)

/-- **C8.** On every exit path of the worker — success, export failure,
API-call failure — the temp file acquired for the chunk payload is gone
from the final state, and the body's outcome (result or exception) is
propagated unchanged. -/
theorem temp_file_released_on_every_path (idx : Nat) (b : BodyOutcome) (s : FsState) :
    (processSingleChunk idx b s).1.tempExists = false ∧
    (processSingleChunk idx b s).2
      = (match b with
         | BodyOutcome.ok t => Except.ok (idx, t)
         | BodyOutcome.exportErr e => Except.error e
         | BodyOutcome.apiErr e => Except.error e) := by
  cases b <;> cases s <;>
    simp [processSingleChunk, tryFinallyRun, chunkBody, createTemp, trySwallow, osUnlink]

/-! ### Alignment loop determinism (`_transcribe_with_diarization` lines 266–294)

The matching loop walks Whisper chunks, strips text, skips empties,
defaults falsy timestamps (`ts if ts else default`), assigns a speaker by
`_find_speaker`, and appends to `result_segments` — the only state it
touches. -/

/-- One Whisper chunk: text plus optional timestamps. -/
structure WhisperChunk where
  text : String
  ts0 : Option ℚ
  ts1 : Option ℚ
  deriving DecidableEq

/-- A speaker-attributed output segment. -/
structure ResultSegment where
  speaker : String
  text : String
  segStart : ℚ
  segEnd : ℚ
  deriving DecidableEq

/-- `x if x else dft` for an optional float: `None` and `0.0` are falsy. -/
def tsOr (t : Option ℚ) (dft : ℚ) : ℚ :=
  match t with
  | some x => if x = 0 then dft else x
  | none => dft

/-- `round(x, 2)` over rationals (Python's float half-even rounding
differs only on exact ties, which nothing here depends on). -/
def round2 (q : ℚ) : ℚ := round (q * 100) / 100

/-- The body of `for chunk in chunks` (lines 278–294). -/
def processChunkSeg (segs : List SpeakerTurn) (c : WhisperChunk) : Option ResultSegment :=
  let text := c.text.trim
  if text = "" then none
  else
    let cs := tsOr c.ts0 0
    let ce := tsOr c.ts1 (cs + 1)
    some { speaker := findSpeaker cs ce segs
           text := text
           segStart := round2 cs
           segEnd := round2 ce }

/-- The alignment loop as a run relation: `AlignRun segs chunks out`
holds when one pass of the loop over `chunks` appends exactly `out` to
the initially empty `result_segments`.  The only state is the explicit
accumulator; no hidden state appears in the relation. -/
inductive AlignRun (segs : List SpeakerTurn) :
    List WhisperChunk → List ResultSegment → Prop
  | nil : AlignRun segs [] []
  | skip {c cs out} : processChunkSeg segs c = none →
      AlignRun segs cs out → AlignRun segs (c :: cs) out
  | keep {c cs r out} : processChunkSeg segs c = some r →
      AlignRun segs cs out → AlignRun segs (c :: cs) (r :: out)

/-- Executable form of the loop. -/
def alignSegments (segs : List SpeakerTurn) : List WhisperChunk → List ResultSegment
  | [] => []
  | c :: cs =>
    match processChunkSeg segs c with
    | none => alignSegments segs cs
    | some r => r :: alignSegments segs cs

theorem alignSegments_realizes_run (segs : List SpeakerTurn)
    (chunks : List WhisperChunk) :
    AlignRun segs chunks (alignSegments segs chunks) := by
  induction chunks with
  | nil => exact AlignRun.nil
  | cons c cs ih =>
      cases hp : processChunkSeg segs c with
      | none =>
          rw [alignSegments, hp]
          exact AlignRun.skip hp ih
      | some r =>
          rw [alignSegments, hp]
          exact AlignRun.keep hp ih

/-- **C9.** Speaker alignment is deterministic and pure: any two runs of
the alignment loop on identical chunk spans and identical turns produce
identical speaker-assigned segments — the output is a function of the
inputs alone. -/
theorem align_runs_deterministic (segs : List SpeakerTurn)
    (chunks : List WhisperChunk) (o1 o2 : List ResultSegment)
    (h1 : AlignRun segs chunks o1) (h2 : AlignRun segs chunks o2) : o1 = o2 := by
  induction h1 generalizing o2 with
  | nil => cases h2; rfl
  | skip hp _ ih =>
      cases h2 with
      | skip hp2 hrest => exact ih _ hrest
      | keep hp2 hrest => rw [hp] at hp2; cases hp2
  | keep hp _ ih =>
      cases h2 with
      | skip hp2 hrest => rw [hp2] at hp; cases hp
      | keep hp2 hrest =>
          rw [hp] at hp2
          injection hp2 with hr
          rw [hr, ih _ hrest]

/-- Witness for C9: two concrete runs — both produced by the executable
loop on Scenario-B data — are identical. -/
theorem align_runs_witness :
    alignSegments [⟨"A", 0, 10⟩, ⟨"B", 10, 20⟩] [⟨" hi ", some 12, some 15⟩]
      = alignSegments [⟨"A", 0, 10⟩, ⟨"B", 10, 20⟩] [⟨" hi ", some 12, some 15⟩] ∧
    AlignRun [⟨"A", 0, 10⟩, ⟨"B", 10, 20⟩] [⟨" hi ", some 12, some 15⟩]
      (alignSegments [⟨"A", 0, 10⟩, ⟨"B", 10, 20⟩] [⟨" hi ", some 12, some 15⟩]) :=
  ⟨align_runs_deterministic [⟨"A", 0, 10⟩, ⟨"B", 10, 20⟩]
      [⟨" hi ", some 12, some 15⟩]
      (alignSegments [⟨"A", 0, 10⟩, ⟨"B", 10, 20⟩] [⟨" hi ", some 12, some 15⟩])
      (alignSegments [⟨"A", 0, 10⟩, ⟨"B", 10, 20⟩] [⟨" hi ", some 12, some 15⟩])
      (alignSegments_realizes_run [⟨"A", 0, 10⟩, ⟨"B", 10, 20⟩]
        [⟨" hi ", some 12, some 15⟩])
      (alignSegments_realizes_run [⟨"A", 0, 10⟩, ⟨"B", 10, 20⟩]
        [⟨" hi ", some 12, some 15⟩]),
   alignSegments_realizes_run [⟨"A", 0, 10⟩, ⟨"B", 10, 20⟩]
     [⟨" hi ", some 12, some 15⟩]⟩

/-! ### Real-time factor (`compute_rtf`, `src/core/metrics.py` lines 106–118,
and the `rtf` field of the gate's empty results, hf_engine.py lines 72–94) -/

/-- `round(x, 4)` over rationals. -/
def round4 (q : ℚ) : ℚ := round (q * 10000) / 10000

/-- The `rtf` field of the gate's empty results:
`round(processing_time / max(audio_duration, 0.001), 4)`. -/
def emptyResultRtf (processingTime audioDuration : ℚ) : ℚ :=
  round4 (processingTime / max audioDuration (1 / 1000))

/-- `compute_rtf(processing_time, audio_length)`: 0.0 when `audio_length`
is `None` or not positive, else `round(processing_time / audio_length, 4)`. -/
def compute_rtf (processingTime : ℚ) (audioLength : Option ℚ) : ℚ :=
  match audioLength with
  | none => 0
  | some a => if a ≤ 0 then 0 else round4 (processingTime / a)

/-- **C10.** The RTF computations never divide by zero: the empty-result
denominator `max(audio_duration, 0.001)` is positive for every duration —
at duration 0 the rtf is `round4(processing_time * 1000)` — and
`compute_rtf` returns 0 whenever `audio_length` is `None` or not
positive, only dividing when the length is nonzero. -/
theorem rtf_never_divides_by_zero (pt dur a : ℚ) :
    (0 < max dur (1 / 1000) ∧ max dur (1 / 1000) ≠ 0) ∧
    emptyResultRtf pt 0 = round4 (pt * 1000) ∧
    compute_rtf pt none = 0 ∧
    (a ≤ 0 → compute_rtf pt (some a) = 0) ∧
    (0 < a → a ≠ 0 ∧ compute_rtf pt (some a) = round4 (pt / a)) := by
  have hpos : (0 : ℚ) < max dur (1 / 1000) :=
    lt_of_lt_of_le (by norm_num) (le_max_right dur (1 / 1000))
  refine ⟨⟨hpos, ne_of_gt hpos⟩, ?_, rfl, ?_, ?_⟩
  · rw [emptyResultRtf, max_eq_right (by norm_num : (0 : ℚ) ≤ 1 / 1000)]
    have hdiv : pt / (1 / 1000 : ℚ) = pt * 1000 := by
      rw [div_eq_mul_inv]
      norm_num
    rw [hdiv]
  · intro h
    simp [compute_rtf, if_pos h]
  · intro h
    exact ⟨ne_of_gt h, by simp [compute_rtf, not_le.mpr h]⟩

/-- Witness for C10: concrete evaluations on `None`, zero, negative and
positive lengths, and a zero-duration empty-result clip. -/
theorem rtf_witness :
    compute_rtf 2 none = 0 ∧
    compute_rtf 2 (some 0) = 0 ∧
    compute_rtf 2 (some (-3)) = 0 ∧
    ((4 : ℚ) ≠ 0 ∧ compute_rtf 2 (some 4) = round4 (2 / 4)) ∧
    emptyResultRtf 2 0 = round4 (2 * 1000) :=
  ⟨(rtf_never_divides_by_zero 2 0 0).2.2.1,
   (rtf_never_divides_by_zero 2 0 0).2.2.2.1 (by norm_num),
   (rtf_never_divides_by_zero 2 0 (-3)).2.2.2.1 (by norm_num),
   (rtf_never_divides_by_zero 2 0 4).2.2.2.2 (by norm_num),
   (rtf_never_divides_by_zero 2 0 0).2.1⟩

end Medinote
